import Mathlib

/-!
Verification development for the sanding-history web app's
configuration-reconstruction core (`src/lib/configUtils.ts`, second revision).

The TypeScript operates on dynamically-typed JSON trees.  We embed those as
the inductive `Json` below: JS objects become insertion-ordered association
lists (matching JS own-property insertion order for the string keys used by
configuration documents), arrays become lists, and numbers are modelled as
integers (the configuration values exercised here are integral; no float
arithmetic is performed by the code).  Mutation in the source acts on
tree-shaped data (the expander works on a fresh `JSON.parse(JSON.stringify _)`
copy, so there is no aliasing), hence it is modelled functionally: each
mutating step returns the updated tree.  A JS exception (strict-mode
`TypeError` from assigning a property on a primitive, or calling `.find` on a
non-array) is modelled as `none` / `Except.error ()`.
-/

namespace SandingHistory

/-- A JSON value as manipulated by the TypeScript code.  `obj` keeps fields in
insertion order, the order `for (const k in o)` visits the string keys that
configuration documents use. -/
inductive Json where
  | null
  | bool (b : Bool)
  | num (n : Int)
  | str (s : String)
  | arr (items : List Json)
  | obj (fields : List (String × Json))

/-- JS truthiness for a defined value (`undefined` is represented by
`Option.none` at use sites). -/
def truthy : Json → Bool
  | .null => false
  | .bool b => b
  | .num n => n != 0
  | .str s => s ≠ ""
  | .arr _ => true
  | .obj _ => true

/-- Property read `o[k]`: `none` models JS `undefined`.  Reads on non-objects
yield `undefined` (configuration trees do not exercise string indexing,
array named properties, or prototype properties). -/
def getProp : Json → String → Option Json
  | .obj fields, k => (fields.find? (fun p => p.1 == k)).map (fun p => p.2)
  | _, _ => none

/-- Assignment into an association list: overwrite the first binding of `k`
in place (JS keeps the original key position) or append a fresh binding. -/
def setFields : List (String × Json) → String → Json → List (String × Json)
  | [], k, v => [(k, v)]
  | (k', v') :: rest, k, v =>
      if k' == k then (k', v) :: rest else (k', v') :: setFields rest k v

/-- Property write `o[k] = v`.  In strict mode (the code ships as an ES
module) assigning a property on a primitive throws `TypeError`; that failure
is `none`. -/
def setProp : Json → String → Json → Option Json
  | .obj fields, k, v => some (.obj (setFields fields k v))
  | _, _, _ => none

/-- JS regex `\w`: ASCII letters, digits, underscore. -/
def isWordChar (c : Char) : Bool :=
  c.isAlpha || c.isDigit || c == '_'

/-- Index of the last occurrence of `c` in the list, if any. -/
def lastIdxOf (c : Char) : List Char → Option Nat
  | [] => none
  | x :: xs =>
      match lastIdxOf c xs with
      | some i => some (i + 1)
      | none => if x == c then some 0 else none

/-- Try the regex `(\w+)\[(\w+)=(.+)\]` anchored at the head of `cs`
(trailing characters are permitted; the pattern is unanchored in the source).
`(.+)` is greedy and cannot cross a line terminator, so the third capture runs
to the last `]` in the newline-free prefix of the remainder. -/
def filterMatchAt (cs : List Char) : Option (String × String × String) :=
  let w1 := cs.takeWhile isWordChar
  let r1 := cs.dropWhile isWordChar
  if w1.isEmpty then none else
  match r1 with
  | '[' :: r2 =>
      let w2 := r2.takeWhile isWordChar
      let r3 := r2.dropWhile isWordChar
      if w2.isEmpty then none else
      match r3 with
      | '=' :: r4 =>
          let body := r4.takeWhile (fun c => c ≠ '\n')
          match lastIdxOf ']' body with
          | some i =>
              if 1 ≤ i then
                some (String.mk w1, String.mk w2, String.mk (body.take i))
              else none
          | none => none
      | _ => none
  | _ => none

/-- Leftmost match of the array-filter regex, scanning start positions left to
right as `String.prototype.match` does. -/
def filterSearch : List Char → Option (String × String × String)
  | [] => none
  | c :: cs =>
      match filterMatchAt (c :: cs) with
      | some r => some r
      | none => filterSearch cs

/-- `key.match(/(\w+)\[(\w+)=(.+)\]/)` from `applyMod`, returning the three
capture groups (array name, filter field, filter value). -/
def jsFilterMatch (s : String) : Option (String × String × String) :=
  filterSearch s.data

/-- JS strict equality `x === pv` where `pv` is a string captured by a regex:
true exactly when `x` is an equal string (any non-string, including
`undefined`, compares false). -/
def strictEqStr (x : Option Json) (pv : String) : Bool :=
  match x with
  | some (Json.str s) => s == pv
  | _ => false

/-- First element of a JS array matching the filter `item[pn] === pv`. -/
def findFilterIdx (pn pv : String) (xs : List Json) : Option Nat :=
  xs.findIdx? (fun it => strictEqStr (getProp it pn) pv)

/-- One patch-path application: the body of `applyMod` with the path already
split on `.`.  All but the last segment are walked; an array-filter segment
that finds a matching element descends into it, otherwise the segment falls
through to ordinary handling, where a missing child is created as `{}` and a
fresh literal-key binding appears under the full (bracketed) segment text.
The final segment is a plain assignment, never filter-interpreted. -/
def applyModKeys : Json → List String → Json → Option Json
  | cur, [], _ => some cur
  | cur, [k], v => setProp cur k v
  | cur, k :: k2 :: rest, v =>
      match jsFilterMatch k with
      | some (an, pn, pv) =>
          match getProp cur an with
          | some (.arr xs) =>
              match findFilterIdx pn pv xs with
              | some j =>
                  match xs.get? j with
                  | some it =>
                      match applyModKeys it (k2 :: rest) v with
                      | some it2 => setProp cur an (.arr (xs.set j it2))
                      | none => none
                  | none => none
              | none =>
                  match getProp cur k with
                  | some c =>
                      match applyModKeys c (k2 :: rest) v with
                      | some r => setProp cur k r
                      | none => none
                  | none =>
                      match cur with
                      | .obj _ =>
                          match applyModKeys (Json.obj []) (k2 :: rest) v with
                          | some r => setProp cur k r
                          | none => none
                      | _ => none
          | _ =>
              match getProp cur k with
              | some c =>
                  match applyModKeys c (k2 :: rest) v with
                  | some r => setProp cur k r
                  | none => none
              | none =>
                  match cur with
                  | .obj _ =>
                      match applyModKeys (Json.obj []) (k2 :: rest) v with
                      | some r => setProp cur k r
                      | none => none
                  | _ => none
      | none =>
          match getProp cur k with
          | some c =>
              match applyModKeys c (k2 :: rest) v with
              | some r => setProp cur k r
              | none => none
          | none =>
              match cur with
              | .obj _ =>
                  match applyModKeys (Json.obj []) (k2 :: rest) v with
                  | some r => setProp cur k r
                  | none => none
              | _ => none

/-- The ordinary (non-filter, or filter-miss fall-through) treatment of one
interior segment, factored out of `applyModKeys` for the statements below. -/
def stepOrdinary (cur : Json) (k : String) (restKeys : List String) (v : Json) :
    Option Json :=
  match getProp cur k with
  | some c =>
      match applyModKeys c restKeys v with
      | some r => setProp cur k r
      | none => none
  | none =>
      match cur with
      | .obj _ =>
          match applyModKeys (Json.obj []) restKeys v with
          | some r => setProp cur k r
          | none => none
      | _ => none

/-- Splitting accumulator for `splitPath`: `acc` holds the reversed current
segment. -/
def splitSegsAux : List Char → List Char → List String
  | acc, [] => [String.mk acc.reverse]
  | acc, c :: cs =>
      if c == '.' then String.mk acc.reverse :: splitSegsAux [] cs
      else splitSegsAux (c :: acc) cs

/-- `path.split('.')` from JS: always at least one (possibly empty) segment. -/
def splitPath (s : String) : List String :=
  splitSegsAux [] s.data

/-- `applyMod(config, path, value)` from the source, modelled functionally:
`some` is the updated tree, `none` a thrown `TypeError`. -/
def applyMod (config : Json) (path : String) (value : Json) : Option Json :=
  applyModKeys config (splitPath path) value

/-- Try the regex `components\.(\w+)\.(.+)` anchored at the head of `cs`
(the source pattern is unanchored, so trailing characters are fine and the
scan over start positions happens in `componentsSearch`). -/
def componentsMatchAt (cs : List Char) : Option (String × String) :=
  if "components.".data.isPrefixOf cs then
    let r := cs.drop 11
    let w := r.takeWhile isWordChar
    let r2 := r.dropWhile isWordChar
    if w.isEmpty then none else
    match r2 with
    | '.' :: r3 =>
        let rest := r3.takeWhile (fun c => c ≠ '\n')
        if rest.isEmpty then none else some (String.mk w, String.mk rest)
    | _ => none
  else none

/-- Leftmost match of the component-path regex. -/
def componentsSearch : List Char → Option (String × String)
  | [] => none
  | c :: cs =>
      match componentsMatchAt (c :: cs) with
      | some r => some r
      | none => componentsSearch cs

/-- `path.match(/components\.(\w+)\.(.+)/)` from `applyFragmentMods`,
returning the component name and the remaining path. -/
def jsComponentsMatch (s : String) : Option (String × String) :=
  componentsSearch s.data

/-- One `(path, value)` entry of a `$set` map, applied to the working
configuration.  A `components.<name>.<rest>` path is routed to the named
element of the top-level `components` array (silently skipped if the array or
the element is missing); any other path goes through `applyMod` directly.
`none` models a thrown `TypeError` (`.find` on a non-array value of
`components`, or a failure inside `applyMod`). -/
def processSet (cfg : Json) (kv : String × Json) : Option Json :=
  match jsComponentsMatch kv.1 with
  | some (cname, restPath) =>
      match getProp cfg "components" with
      | some (Json.arr comps) =>
          match comps.findIdx? (fun c => strictEqStr (getProp c "name") cname) with
          | some j =>
              match comps.get? j with
              | some comp =>
                  match applyMod comp restPath kv.2 with
                  | some comp2 => setProp cfg "components" (Json.arr (comps.set j comp2))
                  | none => none
              | none => none
          | none => some cfg
      | some Json.null => some cfg
      | none => some cfg
      | some _ => none
  | none => applyMod cfg kv.1 kv.2

/-- One mod object: if it carries a `$set` object its entries are applied in
key-insertion order; a mod without a (truthy, iterable) `$set` contributes
nothing.  (A `$set` holding a non-object is skipped by the `for ... in` loop;
configuration documents do not carry string-valued `$set`.) -/
def processMod (cfg : Json) (m : Json) : Option Json :=
  match getProp m "$set" with
  | some (Json.obj kvs) => kvs.foldlM processSet cfg
  | _ => some cfg

/-- One fragment-mod group: its `mods` list is applied in order when present
and an array, otherwise the group is skipped. -/
def processGroup (cfg : Json) (g : Json) : Option Json :=
  match getProp g "mods" with
  | some (Json.arr ms) => ms.foldlM processMod cfg
  | _ => some cfg

/-- `applyFragmentMods(config)` from the source.  When `fragment_mods` is
absent or not an array the document is returned as is; otherwise every group
is replayed, in list order, onto a deep copy (`JSON.parse(JSON.stringify _)`
is the identity on these trees, so the copy is implicit in the functional
model).  The groups iterated are the snapshot taken at entry; the replayed
paths of real documents never rewrite `fragment_mods` itself.  `none` models
an exception escaping the replay. -/
def applyFragmentMods (config : Json) : Option Json :=
  match getProp config "fragment_mods" with
  | some (Json.arr groups) => groups.foldlM processGroup config
  | _ => some config

/-- True when the document carries an array-valued `fragment_mods`, the
condition under which `applyFragmentMods` replays patches. -/
def hasFragmentModsArr (config : Json) : Bool :=
  match getProp config "fragment_mods" with
  | some (Json.arr _) => true
  | _ => false

/-! ### History resolution (`getRobotConfigAtTime`, second revision)

Timestamps are modelled as integers (millisecond epoch values; `Date`
comparison in JS is numeric).  The two external fetches become parameters:
`Except.error ()` is a rejected promise (network/service failure).  A
successful history fetch may still deliver a missing list (`Option.none`),
which the code guards with `!history`. -/

/-- One `RobotPartHistoryEntry` as consumed by the code: `when` may be absent,
`old` is the prior-state `RobotPart` snapshot (a JSON tree), and the
remaining fields only feed `extractConfigMetadata`. -/
structure HistoryEntry where
  when : Option Int
  old : Option Json
  part : Option String
  robot : Option String
  editedBy : Option String

/-- Metadata returned alongside a resolved configuration. -/
structure RobotConfigMetadata where
  partId : String
  robotId : String
  configTimestamp : Int
  editedBy : Option String
  hasOldConfig : Bool

/-- The `{config, metadata}` pair produced by a successful resolution. -/
structure ResolvedConfig where
  config : Json
  metadata : RobotConfigMetadata

/-- `extractConfigMetadata(entry)` from the source; `now` stands for the
`new Date()` fallback used when the entry has no `when`. -/
def extractConfigMetadata (entry : HistoryEntry) (now : Int) : RobotConfigMetadata :=
  { partId := entry.part.getD ""
    robotId := entry.robot.getD ""
    configTimestamp := entry.when.getD now
    editedBy := entry.editedBy
    hasOldConfig :=
      match entry.old with
      | some o => truthy o
      | none => false }

/-- The `history.find` predicate: the entry has a `when` (a `Date` object is
always truthy) that is at or before the requested timestamp. -/
def entryMatches (t : Int) (e : HistoryEntry) : Bool :=
  match e.when with
  | some w => decide (w ≤ t)
  | none => false

/-- The tail of `getRobotConfigAtTime` once a snapshot source is chosen:
guard the snapshot and its `robotConfig`, pick `robotConfig.fields` when
truthy, expand fragment mods, and pair the result with metadata taken from
the boundary entry.  `Except.error ()` is an exception thrown inside the
`try` body (only the fragment replay can throw here). -/
def snapshotToResult (oldOpt : Option Json) (boundary : HistoryEntry) (now : Int) :
    Except Unit (Option ResolvedConfig) :=
  match oldOpt with
  | none => .ok none
  | some robotPart =>
      if truthy robotPart then
        match getProp robotPart "robotConfig" with
        | some rc =>
            if truthy rc then
              let base :=
                match getProp rc "fields" with
                | some f => if truthy f then f else rc
                | none => rc
              match applyFragmentMods base with
              | some finalConfig =>
                  .ok (some ⟨finalConfig, extractConfigMetadata boundary now⟩)
              | none => .error ()
            else .ok none
        | none => .ok none
      else .ok none

/-- The `try` body of `getRobotConfigAtTime`: fetch the newest-first history,
find the boundary entry (first entry at or before `t`), read the prior-state
snapshot of its newer neighbour, or fall back to fetching the current robot
part when the boundary is the newest entry. -/
def resolveBody (historyRes : Except Unit (Option (List HistoryEntry)))
    (partRes : Except Unit Json) (t now : Int) :
    Except Unit (Option ResolvedConfig) :=
  match historyRes with
  | .error e => .error e
  | .ok histOpt =>
    match histOpt with
    | none => .ok none
    | some history =>
      if history.isEmpty then .ok none
      else
        match history.findIdx? (entryMatches t) with
        | none => .ok none
        | some i =>
          match history[i]? with
          | none => .ok none
          | some boundary =>
            if 0 < i then
              match history[i - 1]? with
              | none => .ok none
              | some configEntry => snapshotToResult configEntry.old boundary now
            else
              match partRes with
              | .error e => .error e
              | .ok part => snapshotToResult (some part) boundary now

/-- `getRobotConfigAtTime` from the source: the `try` body with its
`catch` block, which logs and returns `null` on any error. -/
def getRobotConfigAtTime (historyRes : Except Unit (Option (List HistoryEntry)))
    (partRes : Except Unit Json) (t now : Int) : Option ResolvedConfig :=
  match resolveBody historyRes partRes t now with
  | .ok r => r
  | .error _ => none

/-- The result of a chosen snapshot as seen by the caller, after the `catch`
block collapses an exception to `null`. -/
def snapshotResultCaught (oldOpt : Option Json) (boundary : HistoryEntry) (now : Int) :
    Option ResolvedConfig :=
  match snapshotToResult oldOpt boundary now with
  | .ok r => r
  | .error _ => none

/-- True when no element of the array (if `cur[an]` even is an array) passes
the filter `item[pn] === pv`; the situation in which `applyMod` falls through
to ordinary key handling. -/
def filterMissB (cur : Json) (an pn pv : String) : Bool :=
  match getProp cur an with
  | some (Json.arr xs) => (findFilterIdx pn pv xs).isNone
  | _ => true

/-- True when every segment of the split path fails the array-filter regex. -/
def noFilterSegs : List String → Bool
  | [] => true
  | k :: rest => (jsFilterMatch k).isNone && noFilterSegs rest

/-- Reads back a value along a split path (used to state what a patch wrote). -/
def getAtKeys : Json → List String → Option Json
  | cur, [] => some cur
  | cur, k :: rest => (getProp cur k).bind (fun c => getAtKeys c rest)

/-- True when a patch along these keys can fully succeed: every value already
present on the walked spine is a plain object (missing ones are created). -/
def pathCreatable : Json → List String → Bool
  | _, [] => false
  | .obj _, [_] => true
  | .obj fs, k :: k2 :: rest =>
      pathCreatable ((getProp (Json.obj fs) k).getD (Json.obj [])) (k2 :: rest)
  | _, _ => false

/-! ### Helper lemmas about object writes -/

theorem getProp_setFields_self (fields : List (String × Json)) (k : String) (v : Json) :
    getProp (Json.obj (setFields fields k v)) k = some v := by
  induction fields with
  | nil => simp [setFields, getProp]
  | cons p rest ih =>
      obtain ⟨k', v'⟩ := p
      by_cases h : k' = k
      · simp [setFields, getProp, h]
      · simp only [setFields, beq_iff_eq, h, if_false]
        simpa [getProp, List.find?_cons, h] using ih

theorem getProp_setFields_ne (fields : List (String × Json)) (k : String) (v : Json)
    (k' : String) (h : k' ≠ k) :
    getProp (Json.obj (setFields fields k v)) k' = getProp (Json.obj fields) k' := by
  induction fields with
  | nil => simp [setFields, getProp, Ne.symm h]
  | cons p rest ih =>
      obtain ⟨a, b⟩ := p
      by_cases ha : a = k
      · subst ha
        simp [setFields, getProp, List.find?_cons, Ne.symm h]
      · simp only [setFields, beq_iff_eq, ha, if_false]
        by_cases ha' : a = k'
        · simp [getProp, List.find?_cons, ha']
        · simpa [getProp, List.find?_cons, ha'] using ih

theorem setFields_idem (fields : List (String × Json)) (k : String) (v : Json) :
    setFields (setFields fields k v) k v = setFields fields k v := by
  induction fields with
  | nil => simp [setFields]
  | cons p rest ih =>
      obtain ⟨a, b⟩ := p
      by_cases ha : a = k
      · simp [setFields, ha]
      · simp [setFields, ha, ih]

theorem setProp_obj {o : Json} {k : String} {v r : Json} (h : setProp o k v = some r) :
    ∃ fields, o = Json.obj fields ∧ r = Json.obj (setFields fields k v) := by
  cases o <;> simp [setProp] at h
  exact ⟨_, rfl, h.symm⟩

theorem getProp_of_setProp_self {o : Json} {k : String} {v r : Json}
    (h : setProp o k v = some r) : getProp r k = some v := by
  obtain ⟨fields, -, rfl⟩ := setProp_obj h
  exact getProp_setFields_self fields k v

theorem getProp_of_setProp_ne {o : Json} {k : String} {v r : Json} {k' : String}
    (h : setProp o k v = some r) (hne : k' ≠ k) : getProp r k' = getProp o k' := by
  obtain ⟨fields, rfl, rfl⟩ := setProp_obj h
  exact getProp_setFields_ne fields k v k' hne

theorem setProp_idem {o : Json} {k : String} {v r : Json}
    (h : setProp o k v = some r) : setProp r k v = some r := by
  obtain ⟨fields, -, rfl⟩ := setProp_obj h
  simp [setProp, setFields_idem]

/-! ### Branch lemmas for `applyModKeys` -/

theorem applyModKeys_filter_none {k : String} (cur : Json) (k2 : String)
    (rest : List String) (v : Json) (h : jsFilterMatch k = none) :
    applyModKeys cur (k :: k2 :: rest) v = stepOrdinary cur k (k2 :: rest) v := by
  simp only [applyModKeys, h, stepOrdinary]

theorem applyModKeys_filter_miss {k an pn pv : String} (cur : Json) (k2 : String)
    (rest : List String) (v : Json)
    (hm : jsFilterMatch k = some (an, pn, pv))
    (hmiss : filterMissB cur an pn pv = true) :
    applyModKeys cur (k :: k2 :: rest) v = stepOrdinary cur k (k2 :: rest) v := by
  simp only [applyModKeys, hm]
  unfold filterMissB at hmiss
  cases hget : getProp cur an with
  | none => rfl
  | some j =>
      rw [hget] at hmiss
      cases j with
      | arr xs =>
          have hidx : findFilterIdx pn pv xs = none := by
            simpa using hmiss
          dsimp only
          rw [hidx]
          rfl
      | null => rfl
      | bool b => rfl
      | num n => rfl
      | str s => rfl
      | obj fs => rfl

/-- Ordinary-segment patches always succeed on an object spine, creating the
missing intermediates, and the written value can be read back at the path. -/
theorem applyModKeys_creates (keys : List String) :
    ∀ (root v : Json), noFilterSegs keys = true → pathCreatable root keys = true →
      ∃ r, applyModKeys root keys v = some r ∧ getAtKeys r keys = some v := by
  induction keys with
  | nil =>
      intro root v _ hcre
      simp [pathCreatable] at hcre
  | cons k rest ih =>
      intro root v hnf hcre
      simp only [noFilterSegs, Bool.and_eq_true, Option.isNone_iff_eq_none] at hnf
      obtain ⟨hk, hnf'⟩ := hnf
      cases rest with
      | nil =>
          cases root with
          | obj fs =>
              refine ⟨Json.obj (setFields fs k v), rfl, ?_⟩
              simp [getAtKeys, getProp_setFields_self]
          | null => exact absurd hcre (by simp [pathCreatable])
          | bool b => exact absurd hcre (by simp [pathCreatable])
          | num n => exact absurd hcre (by simp [pathCreatable])
          | str s => exact absurd hcre (by simp [pathCreatable])
          | arr items => exact absurd hcre (by simp [pathCreatable])
      | cons k2 rest2 =>
          cases root with
          | obj fs =>
              have hrec := applyModKeys_filter_none (Json.obj fs) k2 rest2 v hk
              simp only [pathCreatable] at hcre
              cases hgp : getProp (Json.obj fs) k with
              | some c =>
                  rw [hgp, Option.getD_some] at hcre
                  obtain ⟨r', hr', hget'⟩ := ih c v hnf' hcre
                  refine ⟨Json.obj (setFields fs k r'), ?_, ?_⟩
                  · rw [hrec]
                    unfold stepOrdinary
                    rw [hgp]
                    dsimp only
                    rw [hr']
                    rfl
                  · rw [getAtKeys, getProp_setFields_self]
                    exact hget'
              | none =>
                  rw [hgp, Option.getD_none] at hcre
                  obtain ⟨r', hr', hget'⟩ := ih (Json.obj []) v hnf' hcre
                  refine ⟨Json.obj (setFields fs k r'), ?_, ?_⟩
                  · rw [hrec]
                    unfold stepOrdinary
                    rw [hgp]
                    dsimp only
                    rw [hr']
                    rfl
                  · rw [getAtKeys, getProp_setFields_self]
                    exact hget'
          | null => exact absurd hcre (by simp [pathCreatable])
          | bool b => exact absurd hcre (by simp [pathCreatable])
          | num n => exact absurd hcre (by simp [pathCreatable])
          | str s => exact absurd hcre (by simp [pathCreatable])
          | arr items => exact absurd hcre (by simp [pathCreatable])

/-- A successful ordinary-segment patch is idempotent. -/
theorem applyModKeys_idem (keys : List String) :
    ∀ (root r v : Json), noFilterSegs keys = true → applyModKeys root keys v = some r →
      applyModKeys r keys v = some r := by
  induction keys with
  | nil =>
      intro root r v _ h
      simp only [applyModKeys, Option.some.injEq] at h
      subst h
      rfl
  | cons k rest ih =>
      intro root r v hnf h
      simp only [noFilterSegs, Bool.and_eq_true, Option.isNone_iff_eq_none] at hnf
      obtain ⟨hk, hnf'⟩ := hnf
      cases rest with
      | nil =>
          have h' : setProp root k v = some r := h
          show setProp r k v = some r
          exact setProp_idem h'
      | cons k2 rest2 =>
          rw [applyModKeys_filter_none root k2 rest2 v hk] at h
          rw [applyModKeys_filter_none r k2 rest2 v hk]
          unfold stepOrdinary at h ⊢
          cases hgp : getProp root k with
          | some c =>
              rw [hgp] at h
              dsimp only at h
              cases happ : applyModKeys c (k2 :: rest2) v with
              | none => rw [happ] at h; cases h
              | some sub =>
                  rw [happ] at h
                  dsimp only at h
                  have hrk : getProp r k = some sub := getProp_of_setProp_self h
                  rw [hrk]
                  dsimp only
                  rw [ih c sub v hnf' happ]
                  dsimp only
                  exact setProp_idem h
          | none =>
              rw [hgp] at h
              dsimp only at h
              cases root with
              | obj fs =>
                  cases happ : applyModKeys (Json.obj []) (k2 :: rest2) v with
                  | none => rw [happ] at h; cases h
                  | some sub =>
                      rw [happ] at h
                      dsimp only at h
                      have hrk : getProp r k = some sub := getProp_of_setProp_self h
                      rw [hrk]
                      dsimp only
                      rw [ih (Json.obj []) sub v hnf' happ]
                      dsimp only
                      exact setProp_idem h
              | null => cases h
              | bool b => cases h
              | num n => cases h
              | str s => cases h
              | arr items => cases h

/-! ### Claim C4: unmatched array filter -/

/-- C4 (counterexample): contrary to the claim, a single patch whose
array-filter segment matches nothing does write: `apply({}, "items[name=z].v", 9)`
creates a literal property named `items[name=z]` holding `{v: 9}`, so the
root is not left unchanged (and no error is raised). -/
theorem c4_filter_miss_writes :
    applyMod (Json.obj []) "items[name=z].v" (Json.num 9) =
      some (Json.obj [("items[name=z]", Json.obj [("v", Json.num 9)])]) ∧
    applyMod (Json.obj []) "items[name=z].v" (Json.num 9) ≠ some (Json.obj []) := by
  refine ⟨rfl, ?_⟩
  intro h
  rw [show applyMod (Json.obj []) "items[name=z].v" (Json.num 9) =
      some (Json.obj [("items[name=z]", Json.obj [("v", Json.num 9)])]) from rfl] at h
  simp at h

/-- C4 (amended): when an interior array-filter segment `arr[field=value]`
misses (the array is absent, not an array, or has no element whose `field`
is the string `value`), the operation raises no error but is not a no-op:
it falls through to ordinary key handling, treating the whole bracketed text
as a literal object key; every other top-level key of the root — in
particular the filtered array itself — is unchanged. -/
theorem c4_filter_miss_literal_key (root : Json) (k k2 : String) (rest : List String)
    (v : Json) (an pn pv : String)
    (hm : jsFilterMatch k = some (an, pn, pv))
    (hmiss : filterMissB root an pn pv = true) :
    applyModKeys root (k :: k2 :: rest) v = stepOrdinary root k (k2 :: rest) v ∧
    ∀ r k', applyModKeys root (k :: k2 :: rest) v = some r → k' ≠ k →
      getProp r k' = getProp root k' := by
  have heq := applyModKeys_filter_miss root k2 rest v hm hmiss
  refine ⟨heq, ?_⟩
  intro r k' hr hne
  rw [heq] at hr
  unfold stepOrdinary at hr
  cases hget : getProp root k with
  | some c =>
      rw [hget] at hr
      dsimp only at hr
      cases happ : applyModKeys c (k2 :: rest) v with
      | none => rw [happ] at hr; cases hr
      | some sub =>
          rw [happ] at hr
          exact getProp_of_setProp_ne hr hne
  | none =>
      rw [hget] at hr
      dsimp only at hr
      cases root with
      | obj fs =>
          cases happ : applyModKeys (Json.obj []) (k2 :: rest) v with
          | none => rw [happ] at hr; cases hr
          | some sub =>
              rw [happ] at hr
              exact getProp_of_setProp_ne hr hne
      | null => cases hr
      | bool b => cases hr
      | num n => cases hr
      | str s => cases hr
      | arr items => cases hr

/-- A root whose `items` array has no element with `name == "z"`. -/
def rootC4 : Json := Json.obj [("items", Json.arr [Json.obj [("name", Json.str "x")]])]

/-- The result of the missed-filter patch on `rootC4`: the literal key is
appended, the `items` array untouched. -/
def resC4 : Json := Json.obj
  [("items", Json.arr [Json.obj [("name", Json.str "x")]]),
   ("items[name=z]", Json.obj [("v", Json.num 9)])]

/-- C4 (witness): the amended statement instantiated on `rootC4`. -/
theorem c4_filter_miss_literal_key_witness :
    applyModKeys rootC4 ["items[name=z]", "v"] (Json.num 9) =
      stepOrdinary rootC4 "items[name=z]" ["v"] (Json.num 9) ∧
    getProp resC4 "items" = getProp rootC4 "items" :=
  ⟨(c4_filter_miss_literal_key rootC4 "items[name=z]" "v" [] (Json.num 9)
      "items" "name" "z" rfl rfl).1,
   (c4_filter_miss_literal_key rootC4 "items[name=z]" "v" [] (Json.num 9)
      "items" "name" "z" rfl rfl).2 resC4 "items" rfl (by decide)⟩

/-! ### Claim C7: ordinary dotted paths -/

/-- C7 (counterexample): a path of only ordinary segments can still fail:
with the number `5` occupying the intermediate position `a`,
`apply({a:5}, "a.b.c", 7)` throws a strict-mode `TypeError` (modelled as
`none`) instead of succeeding. -/
theorem c7_primitive_intermediate_fails :
    noFilterSegs (splitPath "a.b.c") = true ∧
    applyMod (Json.obj [("a", Json.num 5)]) "a.b.c" (Json.num 7) = none :=
  ⟨rfl, rfl⟩

/-- C7 (amended): for every dotted path of ordinary (non-array-filter)
segments, `apply(root, path, value)` succeeds provided every value already
present along the walked spine is a plain object — missing intermediates are
created as plain objects — and the written value can be read back at the
path.  (A primitive occupying a spine position makes the write throw.) -/
theorem c7_ordinary_path_creation (root : Json) (path : String) (v : Json)
    (hnf : noFilterSegs (splitPath path) = true)
    (hcre : pathCreatable root (splitPath path) = true) :
    ∃ r, applyMod root path v = some r ∧ getAtKeys r (splitPath path) = some v :=
  applyModKeys_creates (splitPath path) root v hnf hcre

/-- C7 (witness): `apply({}, "a.b.c", 5)` succeeds and `a.b.c` reads back 5
(the result is `{a:{b:{c:5}}}`). -/
theorem c7_ordinary_path_creation_witness :
    ∃ r, applyMod (Json.obj []) "a.b.c" (Json.num 5) = some r ∧
      getAtKeys r (splitPath "a.b.c") = some (Json.num 5) :=
  c7_ordinary_path_creation (Json.obj []) "a.b.c" (Json.num 5) rfl rfl

/-! ### Claim C8: idempotence of a repeated set -/

/-- A root whose `arr` has one element, named `x`. -/
def rootC8 : Json := Json.obj [("arr", Json.arr [Json.obj [("name", Json.str "x")]])]

/-- `rootC8` after `apply(_, "arr[name=x].name", "y")` once: the element was
renamed in place. -/
def rootC8once : Json := Json.obj [("arr", Json.arr [Json.obj [("name", Json.str "y")]])]

/-- `rootC8once` after the same patch again: the filter no longer matches, so
a literal-key binding appears instead of renaming anything. -/
def rootC8twice : Json := Json.obj
  [("arr", Json.arr [Json.obj [("name", Json.str "y")]]),
   ("arr[name=x]", Json.obj [("name", Json.str "y")])]

/-- C8 (counterexample): `apply` is not idempotent in general.  The first
application of `"arr[name=x].name" := "y"` renames the matched element; the
second application no longer matches the filter and instead creates a
literal `arr[name=x]` key, yielding a different tree. -/
theorem c8_filter_write_not_idempotent :
    applyMod rootC8 "arr[name=x].name" (Json.str "y") = some rootC8once ∧
    applyMod rootC8once "arr[name=x].name" (Json.str "y") ≠ some rootC8once := by
  refine ⟨rfl, ?_⟩
  intro h
  rw [show applyMod rootC8once "arr[name=x].name" (Json.str "y") = some rootC8twice
      from rfl] at h
  simp [rootC8twice, rootC8once] at h

/-- C8 (amended): a successful `set` along a path with no array-filter
segment is idempotent: applying it a second time returns the same tree. -/
theorem c8_idempotent_without_filters (root r : Json) (path : String) (v : Json)
    (hnf : noFilterSegs (splitPath path) = true)
    (h : applyMod root path v = some r) :
    applyMod r path v = some r :=
  applyModKeys_idem (splitPath path) root r v hnf h

/-- C8 (witness): the amended statement at `apply({}, "a.b", 5)`. -/
theorem c8_idempotent_without_filters_witness :
    applyMod (Json.obj [("a", Json.obj [("b", Json.num 5)])]) "a.b" (Json.num 5) =
      some (Json.obj [("a", Json.obj [("b", Json.num 5)])]) :=
  c8_idempotent_without_filters (Json.obj []) _ "a.b" (Json.num 5) rfl rfl

/-! ### Claim C9: expansion is the identity without `fragment_mods` -/

/-- C9: a document whose `fragment_mods` is absent or not an array expands to
a value deep-equal (in the model: equal) to the input, raising no error. -/
theorem c9_expand_identity (config : Json) (h : hasFragmentModsArr config = false) :
    applyFragmentMods config = some config := by
  unfold applyFragmentMods
  unfold hasFragmentModsArr at h
  cases hg : getProp config "fragment_mods" with
  | none => rfl
  | some j =>
      rw [hg] at h
      cases j with
      | arr gs => exact absurd h (by simp)
      | null => rfl
      | bool b => rfl
      | num n => rfl
      | str s => rfl
      | obj fs => rfl

/-- C9 (witness): a one-field document without `fragment_mods` is returned
unchanged. -/
theorem c9_expand_identity_witness :
    applyFragmentMods (Json.obj [("x", Json.num 1)]) = some (Json.obj [("x", Json.num 1)]) :=
  c9_expand_identity (Json.obj [("x", Json.num 1)]) rfl

/-! ### Claim C10: only `$set` is recognized on a mod -/

/-- A mod object without a `$set` property is a no-op for the replay. -/
theorem processMod_no_set {m : Json} (h : getProp m "$set" = none) (cfg : Json) :
    processMod cfg m = some cfg := by
  unfold processMod
  rw [h]

/-- C10: a mod lacking a `$set` property (for example one keyed `set`, or an
`unset`/`$unset` variant) contributes no change to the replay of a mods list
and raises no error: the fold over a list containing it equals the fold over
the list with it removed, so the `$set` mods around it still apply. -/
theorem c10_non_set_mods_ignored (cfg : Json) (l1 l2 : List Json) (m : Json)
    (h : getProp m "$set" = none) :
    List.foldlM processMod cfg (l1 ++ m :: l2) = List.foldlM processMod cfg (l1 ++ l2) := by
  induction l1 generalizing cfg with
  | nil =>
      simp only [List.nil_append, List.foldlM_cons, processMod_no_set h]
      rfl
  | cons a l1 ih =>
      simp only [List.cons_append, List.foldlM_cons]
      cases hpa : processMod cfg a with
      | none => rfl
      | some c => exact ih c

/-- A document whose single group carries one ignored (`set`-keyed) mod and
one effective `$set` mod. -/
def modPlainSet : Json := Json.obj [("set", Json.obj [("a", Json.num 1)])]

/-- A mod that does use `$set`. -/
def modDollarSet : Json := Json.obj [("$set", Json.obj [("b", Json.num 2)])]

/-- C10 (witness): replaying `[modDollarSet, modPlainSet]` equals replaying
`[modDollarSet]` alone. -/
theorem c10_non_set_mods_ignored_witness :
    List.foldlM processMod (Json.obj [("a", Json.num 0)]) [modDollarSet, modPlainSet] =
      List.foldlM processMod (Json.obj [("a", Json.num 0)]) [modDollarSet] :=
  c10_non_set_mods_ignored (Json.obj [("a", Json.num 0)]) [modDollarSet] [] modPlainSet rfl

/-! ### Claim C6: deterministic replay order -/

/-- The two-group document of the spec's determinism test: both groups set
`components.motor1.maxRpm`, first to 10, then to 20. -/
def docC6 : Json := Json.obj
  [("components", Json.arr [Json.obj [("name", Json.str "motor1")]]),
   ("fragment_mods", Json.arr
     [Json.obj [("mods", Json.arr
        [Json.obj [("$set", Json.obj [("components.motor1.maxRpm", Json.num 10)])]])],
      Json.obj [("mods", Json.arr
        [Json.obj [("$set", Json.obj [("components.motor1.maxRpm", Json.num 20)])]])]])]

/-- `docC6` expanded: the later group won, `maxRpm` is 20 (and `fragment_mods`
is retained — cleanup in the source is commented out). -/
def docC6expanded : Json := Json.obj
  [("components", Json.arr
     [Json.obj [("name", Json.str "motor1"), ("maxRpm", Json.num 20)]]),
   ("fragment_mods", Json.arr
     [Json.obj [("mods", Json.arr
        [Json.obj [("$set", Json.obj [("components.motor1.maxRpm", Json.num 10)])]])],
      Json.obj [("mods", Json.arr
        [Json.obj [("$set", Json.obj [("components.motor1.maxRpm", Json.num 20)])]])]])]

/-- C6: replay order is fixed — group lists, mods lists and the key lists of
each `$set` map all replay left-to-right (an appended list replays as the
first part, then the second on its result), so a later operation on the same
path overwrites an earlier one; on the two-group `maxRpm` document the
expanded value is 20. -/
theorem c6_replay_order_deterministic :
    (∀ (cfg : Json) (gs1 gs2 : List Json),
        List.foldlM processGroup cfg (gs1 ++ gs2) =
          List.foldlM processGroup cfg gs1 >>= fun c => List.foldlM processGroup c gs2) ∧
    (∀ (cfg : Json) (ms1 ms2 : List Json),
        List.foldlM processMod cfg (ms1 ++ ms2) =
          List.foldlM processMod cfg ms1 >>= fun c => List.foldlM processMod c ms2) ∧
    (∀ (cfg : Json) (kvs1 kvs2 : List (String × Json)),
        List.foldlM processSet cfg (kvs1 ++ kvs2) =
          List.foldlM processSet cfg kvs1 >>= fun c => List.foldlM processSet c kvs2) ∧
    applyFragmentMods docC6 = some docC6expanded := by
  refine ⟨?_, ?_, ?_, rfl⟩
  · intro cfg gs1 gs2
    exact List.foldlM_append processGroup cfg gs1 gs2
  · intro cfg ms1 ms2
    exact List.foldlM_append processMod cfg ms1 ms2
  · intro cfg kvs1 kvs2
    exact List.foldlM_append processSet cfg kvs1 kvs2

/-! ### Resolver lemmas and claims -/

/-- Whenever the snapshot pipeline yields a result, its metadata was built
from the boundary entry it was given. -/
theorem snapshotToResult_metadata {oldOpt : Option Json} {b : HistoryEntry}
    {now : Int} {r : ResolvedConfig}
    (h : snapshotToResult oldOpt b now = .ok (some r)) :
    r.metadata = extractConfigMetadata b now := by
  unfold snapshotToResult at h
  cases oldOpt with
  | none => simp at h
  | some rp =>
      dsimp only at h
      cases htr : truthy rp with
      | false => rw [htr] at h; simp at h
      | true =>
          rw [htr] at h
          simp only [if_true] at h
          cases hrc : getProp rp "robotConfig" with
          | none => rw [hrc] at h; simp at h
          | some rc =>
              rw [hrc] at h
              dsimp only at h
              cases htrc : truthy rc with
              | false => rw [htrc] at h; simp at h
              | true =>
                  rw [htrc] at h
                  simp only [if_true] at h
                  cases hfm : applyFragmentMods
                      (match getProp rc "fields" with
                       | some f => if truthy f then f else rc
                       | none => rc) with
                  | none => rw [hfm] at h; simp at h
                  | some fc =>
                      rw [hfm] at h
                      dsimp only at h
                      cases h' : h
                      rfl

/-- C5: a missing history list, an empty history list, or a timestamp at or
before which no entry falls, all resolve to null, and no error escapes. -/
theorem c5_null_on_missing_or_predating (partRes : Except Unit Json) (t now : Int) :
    getRobotConfigAtTime (.ok none) partRes t now = none ∧
    getRobotConfigAtTime (.ok (some [])) partRes t now = none ∧
    ∀ hist : List HistoryEntry, (∀ e ∈ hist, entryMatches t e = false) →
      getRobotConfigAtTime (.ok (some hist)) partRes t now = none := by
  refine ⟨rfl, rfl, ?_⟩
  intro hist hnone
  have hfind : hist.findIdx? (entryMatches t) = none :=
    List.findIdx?_eq_none_iff.mpr hnone
  cases hist with
  | nil => rfl
  | cons e es =>
      simp [getRobotConfigAtTime, resolveBody, hfind]

/-- A history entry used to instantiate the resolver claims. -/
def entryAt (w : Int) : HistoryEntry :=
  { when := some w
    old := some (Json.obj [("robotConfig", Json.obj [("x", Json.num 1)])])
    part := some "p1"
    robot := some "r1"
    editedBy := none }

/-- C5 (witness): the predating case at a concrete one-entry history. -/
theorem c5_null_on_missing_or_predating_witness :
    getRobotConfigAtTime (.ok (some [entryAt 10])) (.ok Json.null) 5 0 = none :=
  (c5_null_on_missing_or_predating (.ok Json.null) 5 0).2.2 [entryAt 10] (by decide)

/-- C3 (counterexample): when the history fetch fails, the `try` body raises,
but `getRobotConfigAtTime` catches it and returns null — no distinguishable
error reaches the caller (no `HistoryFetchError` exists in the code). -/
theorem c3_fetch_error_swallowed :
    resolveBody (.error ()) (.ok Json.null) 0 0 = .error () ∧
    getRobotConfigAtTime (.error ()) (.ok Json.null) 0 0 = none :=
  ⟨rfl, rfl⟩

/-- C3 (amended): a transport failure of the history fetch — or of the
current-part fetch taken on the newest-boundary path — is caught by the
function itself, which returns null to its caller; nothing is retried and no
error propagates. -/
theorem c3_fetch_errors_return_null (partRes : Except Unit Json) (t now : Int) :
    getRobotConfigAtTime (.error ()) partRes t now = none ∧
    ∀ hist : List HistoryEntry, hist.findIdx? (entryMatches t) = some 0 →
      getRobotConfigAtTime (.ok (some hist)) (.error ()) t now = none := by
  refine ⟨rfl, ?_⟩
  intro hist hfind
  cases hist with
  | nil => exact absurd hfind (by simp)
  | cons e es =>
      simp [getRobotConfigAtTime, resolveBody, hfind]

/-- C3 (witness): the amended statement at a one-entry history whose entry is
the boundary, with the current-part fetch failing. -/
theorem c3_fetch_errors_return_null_witness :
    getRobotConfigAtTime (.ok (some [entryAt 10])) (.error ()) 20 0 = none :=
  (c3_fetch_errors_return_null (.error ()) 20 0).2 [entryAt 10] (by decide)

/-- C2: when the first entry at or before `t` is the newest entry (index 0),
the configuration is obtained from the current-part fetch (`getRobotPart`):
the result is the snapshot pipeline applied to the fetched part — whatever
the entries' own `old` snapshots hold — with metadata from the boundary. -/
theorem c2_newest_boundary_uses_current_fetch (hist : List HistoryEntry)
    (partRes : Except Unit Json) (t now : Int)
    (hfind : hist.findIdx? (entryMatches t) = some 0) :
    ∃ boundary, hist[0]? = some boundary ∧
      getRobotConfigAtTime (.ok (some hist)) partRes t now =
        (match partRes with
         | .error _ => none
         | .ok part => snapshotResultCaught (some part) boundary now) := by
  cases hist with
  | nil => exact absurd hfind (by simp)
  | cons e es =>
      refine ⟨e, List.getElem?_cons_zero, ?_⟩
      cases partRes with
      | error u =>
          simp [getRobotConfigAtTime, resolveBody, hfind]
      | ok part =>
          simp only [getRobotConfigAtTime, resolveBody, List.isEmpty_cons, hfind,
            Bool.false_eq_true, if_false, List.getElem?_cons_zero, Nat.lt_irrefl,
            snapshotResultCaught]

/-- C2 (witness): the claim at a one-entry history with the query after it. -/
theorem c2_newest_boundary_uses_current_fetch_witness :
    ∃ boundary, [entryAt 10][0]? = some boundary ∧
      getRobotConfigAtTime (.ok (some [entryAt 10]))
          (.ok (Json.obj [("robotConfig", Json.obj [("y", Json.num 2)])])) 20 0 =
        (match (Except.ok (Json.obj [("robotConfig", Json.obj [("y", Json.num 2)])]) :
            Except Unit Json) with
         | .error _ => none
         | .ok part => snapshotResultCaught (some part) boundary 0) :=
  c2_newest_boundary_uses_current_fetch [entryAt 10]
    (.ok (Json.obj [("robotConfig", Json.obj [("y", Json.num 2)])])) 20 0 (by decide)

/-- C1: when the boundary entry (first entry with `when ≤ t`) sits at index
`i > 0`, the configuration is resolved from the prior-state (`old`) snapshot
of the entry at index `i - 1` — the immediately newer neighbour — while the
metadata is always built from the boundary entry at index `i`; the
current-part fetch is never consulted (the result is the same for every
`partRes`). -/
theorem c1_interior_boundary_uses_newer_snapshot (hist : List HistoryEntry)
    (partRes : Except Unit Json) (t now : Int) (i : Nat)
    (hfind : hist.findIdx? (entryMatches t) = some i) (hpos : 0 < i) :
    ∃ prev boundary, hist[i - 1]? = some prev ∧ hist[i]? = some boundary ∧
      getRobotConfigAtTime (.ok (some hist)) partRes t now =
        snapshotResultCaught prev.old boundary now ∧
      ∀ res, getRobotConfigAtTime (.ok (some hist)) partRes t now = some res →
        res.metadata = extractConfigMetadata boundary now := by
  obtain ⟨hlt, -⟩ := List.findIdx?_eq_some_iff_getElem.mp hfind
  have hprevlt : i - 1 < hist.length := Nat.lt_of_le_of_lt (Nat.sub_le i 1) hlt
  cases hb : hist[i]? with
  | none =>
      rw [List.getElem?_eq_none_iff] at hb
      omega
  | some boundary =>
      cases hp : hist[i - 1]? with
      | none =>
          rw [List.getElem?_eq_none_iff] at hp
          omega
      | some prev =>
          have heq : getRobotConfigAtTime (.ok (some hist)) partRes t now =
              snapshotResultCaught prev.old boundary now := by
            cases hist with
            | nil => exact absurd hfind (by simp)
            | cons e es =>
                simp only [getRobotConfigAtTime, resolveBody, List.isEmpty_cons,
                  Bool.false_eq_true, if_false, hfind, hb, hp, hpos, if_true,
                  snapshotResultCaught]
          refine ⟨prev, boundary, rfl, rfl, heq, ?_⟩
          intro res hres
          rw [heq] at hres
          unfold snapshotResultCaught at hres
          cases hsr : snapshotToResult prev.old boundary now with
          | error u => rw [hsr] at hres; cases hres
          | ok ro =>
              rw [hsr] at hres
              dsimp only at hres
              subst hres
              exact snapshotToResult_metadata hsr

/-- A two-entry newest-first history: the newer change at time 10 carries the
snapshot, the older change at time 5 is the boundary for a query at 7. -/
def histC1 : List HistoryEntry := [entryAt 10, entryAt 5]

/-- C1 (witness): the claim at `histC1` with query time 7: the boundary is
the entry at index 1 (time 5) and the snapshot comes from index 0. -/
theorem c1_interior_boundary_uses_newer_snapshot_witness :
    ∃ prev boundary, histC1[0]? = some prev ∧ histC1[1]? = some boundary ∧
      getRobotConfigAtTime (.ok (some histC1)) (.ok Json.null) 7 0 =
        snapshotResultCaught prev.old boundary 0 ∧
      ∀ res, getRobotConfigAtTime (.ok (some histC1)) (.ok Json.null) 7 0 = some res →
        res.metadata = extractConfigMetadata boundary 0 :=
  c1_interior_boundary_uses_newer_snapshot histC1 (.ok Json.null) 7 0 1
    (by decide) (by decide)

end SandingHistory
